import Mathlib

/-!
# afocuscaptcha: the captcha composer of `captcha.go`

A shallow embedding of `captcha.go`: the configuration record `Captcha` with its
setters, and the composer `CreateImage` with its stages `drawBkg`, `drawNoises`
and `drawString`.

* Go `int` is `Int`; Go's `/` on integers is truncated division (`Int.tdiv`) and
  panics on a zero divisor. Wrap-around at 64 bits is not modelled: every integer
  computed here is bounded by a canvas dimension or a string length.
* A Go `string` is its byte sequence; `len` is the byte count and `range` decodes
  UTF-8, yielding the byte offset and the rune of every character.
* `int(float64(n) * c)` is computed exactly: binary64 round-to-nearest-even on the
  integer numerator of the dyadic value.
* `rand.Intn(n)` panics for `n <= 0` and otherwise yields an arbitrary value of
  `[0, n)`, read from an explicit stream of draws.
* A panic is an `Except.error`; an image is its size together with the log of the
  drawing calls it received, in call order.
-/

namespace Afocus

/-! ## Run-time faults and random sources -/

/-- Panics that can stop a render. -/
inductive Fault
  | intnArg
  | divideByZero
  | indexOutOfRange
  | invalidDimension
  | emptyPalette
  deriving DecidableEq, Repr

/-- A `*rand.Rand`: the stream of raw draws and the number of draws consumed. -/
structure Rng where
  draws : Nat → Nat
  pos : Nat

/-- Go `r.Intn(n)`: panics when `n <= 0`, otherwise a value of `[0, n)`. -/
def Rng.Intn (g : Rng) (n : Int) : Except Fault (Int × Rng) :=
  if n ≤ 0 then .error .intnArg
  else .ok (((g.draws g.pos % n.toNat : Nat) : Int), { g with pos := g.pos + 1 })

/-- Go integer division `a / b`: truncated, and a panic when `b = 0`. -/
def goDiv (a b : Int) : Except Fault Int :=
  if b = 0 then .error .divideByZero else .ok (Int.tdiv a b)

/-- Go slice indexing `xs[i]`: a panic when `i` is out of range. -/
def indexAt {α : Type} (xs : List α) (i : Int) : Except Fault α :=
  if i < 0 then .error .indexOutOfRange
  else match xs.get? i.toNat with
    | some x => .ok x
    | none => .error .indexOutOfRange

/-! ## binary64 arithmetic on non-negative dyadic values -/

/-- Number of halvings that bring `n` below `2^53` (at most `fuel`). -/
def shiftOf : Nat → Nat → Nat
  | 0, _ => 0
  | fuel + 1, n => if n < 2 ^ 53 then 0 else 1 + shiftOf fuel (n / 2)

/-- Round the natural number `n` to 53 significant bits, ties to even: the
binary64 value nearest to `n`. Rounding `n / 2^k` gives `roundF64 n / 2^k`. -/
def roundF64 (n : Nat) : Nat :=
  let s := shiftOf n n
  if s = 0 then n
  else
    let q := n / 2 ^ s
    let r := n % 2 ^ s
    let half := 2 ^ (s - 1)
    if r < half then q * 2 ^ s
    else if half < r then (q + 1) * 2 ^ s
    else if q % 2 = 0 then q * 2 ^ s
    else (q + 1) * 2 ^ s

/-- Go `r.Float64()`, which is `float64(r.Int63()) / (1 << 63)`, drawn again while the
quotient is 1: the numerator over `2^63` of the value returned. The draw read here is
the one the retry loop accepts; `float64(k)` reaches `2^63` exactly for `k >= 2^63 - 512`,
so an accepted `k` lies below that. -/
def Rng.Float64 (g : Rng) : Nat × Rng :=
  (roundF64 (g.draws g.pos % (2 ^ 63 - 512)), { g with pos := g.pos + 1 })

/-- Go `int(float64(x) * c)` for the binary64 constant `c = m / 2^k`: convert,
multiply with one rounding, truncate toward zero. -/
def mulConstTrunc (m k : Nat) (x : Int) : Int :=
  Int.sign x * ((roundF64 (roundF64 x.natAbs * m) / 2 ^ k : Nat) : Int)

/-- Numerator of the binary64 constant `0.65` over `2^53`. -/
def c065 : Nat := 5854679515581645

/-- Numerator of the binary64 constant `0.2` over `2^55`. -/
def c02 : Nat := 7205759403792794

/-- Go `int(math.Pow(-1, float64(i)))` for `i >= 0`: the sign by the parity of `float64(i)`. -/
def powNegOne (i : Nat) : Int :=
  if roundF64 i % 2 = 0 then 1 else -1

/-! ## Go strings -/

/-- A Go string: its bytes. -/
abbrev GoString := List (Fin 256)

/-- Continuation byte `0x80..0xBF`. -/
def isCont (b : Fin 256) : Bool := 0x80 ≤ b.val && b.val ≤ 0xBF

/-- Decode the first rune of a string as `range` does: the rune and its width in
bytes; an invalid or truncated encoding gives `U+FFFD` of width 1. -/
def decodeRune : GoString → Nat × Nat
  | [] => (0xFFFD, 0)
  | b0 :: rest =>
    let x := b0.val
    if x < 0x80 then (x, 1)
    else if 0xC2 ≤ x ∧ x ≤ 0xDF then
      match rest with
      | b1 :: _ =>
        if isCont b1 then ((x % 32) * 64 + b1.val % 64, 2) else (0xFFFD, 1)
      | [] => (0xFFFD, 1)
    else if 0xE0 ≤ x ∧ x ≤ 0xEF then
      match rest with
      | b1 :: b2 :: _ =>
        let lo := if x = 0xE0 then 0xA0 else 0x80
        let hi := if x = 0xED then 0x9F else 0xBF
        if lo ≤ b1.val ∧ b1.val ≤ hi ∧ isCont b2 then
          ((x % 16) * 4096 + (b1.val % 64) * 64 + b2.val % 64, 3)
        else (0xFFFD, 1)
      | _ => (0xFFFD, 1)
    else if 0xF0 ≤ x ∧ x ≤ 0xF4 then
      match rest with
      | b1 :: b2 :: b3 :: _ =>
        let lo := if x = 0xF0 then 0x90 else 0x80
        let hi := if x = 0xF4 then 0x8F else 0xBF
        if lo ≤ b1.val ∧ b1.val ≤ hi ∧ isCont b2 ∧ isCont b3 then
          ((x % 8) * 262144 + (b1.val % 64) * 4096 + (b2.val % 64) * 64 + b3.val % 64, 4)
        else (0xFFFD, 1)
      | _ => (0xFFFD, 1)
    else (0xFFFD, 1)

/-- The pairs `(byte offset, rune)` of `for i, char := range str`, started at byte
offset `i` with `skip` bytes of the current rune still to pass over. -/
def rangeFrom : Nat → Nat → GoString → List (Nat × Nat)
  | _, _, [] => []
  | 0, i, b :: rest =>
    (i, (decodeRune (b :: rest)).1) :: rangeFrom ((decodeRune (b :: rest)).2 - 1) (i + 1) rest
  | k + 1, i, _ :: rest => rangeFrom k (i + 1) rest

/-- The iterations of `for i, char := range str`. -/
def rangeStr (str : GoString) : List (Nat × Nat) := rangeFrom 0 0 str

/-- The literal `"unkown"` of `CreateImage`. -/
def unkown : GoString := [0x75, 0x6E, 0x6B, 0x6F, 0x77, 0x6E]

/-! ## Configuration -/

/-- A `color.Color`, identified by its packed RGBA value. -/
structure Color where
  rgba : Nat
  deriving DecidableEq, Repr

/-- A parsed `*truetype.Font`, identified by a handle. -/
structure Font where
  handle : Nat
  deriving DecidableEq, Repr

/-- An `image.Point`. -/
structure Point where
  X : Int
  Y : Int
  deriving DecidableEq, Repr

/-- Go `color.Black`. -/
def Black : Color := ⟨0x000000FF⟩

/-- Go `color.White`. -/
def White : Color := ⟨0xFFFFFFFF⟩

/-- The `Captcha` struct. -/
structure Captcha where
  frontColors : List Color
  bkgColors : List Color
  disturlvl : Int
  fonts : List Font
  size : Point
  deriving DecidableEq, Repr

/-- Go `DisturLevel` constant `NORMAL`. -/
def NORMAL : Int := 4

/-- Go `DisturLevel` constant `MEDIUM`. -/
def MEDIUM : Int := 8

/-- Go `DisturLevel` constant `HIGH`. -/
def HIGH : Int := 16

/-- Go `New()`. -/
def New : Captcha :=
  { frontColors := [Black], bkgColors := [White], disturlvl := NORMAL, fonts := [],
    size := ⟨82, 32⟩ }

/-- Go `AddFont(path)`: `parsed` is the outcome of reading and parsing the file; on
success the font is appended, on failure the configuration is unchanged. -/
def Captcha.AddFont (c : Captcha) (parsed : Option Font) : Captcha :=
  match parsed with
  | none => c
  | some f => { c with fonts := c.fonts ++ [f] }

/-- Go `SetDisturbance(d)`. -/
def Captcha.SetDisturbance (c : Captcha) (d : Int) : Captcha :=
  if d > 0 then { c with disturlvl := d } else c

/-- The loop `for _, v := range colors { dst = append(dst, v) }` from an empty slice. -/
def appendAll (colors : List Color) : List Color :=
  colors.foldl (fun acc v => acc ++ [v]) []

/-- Go `SetFrontColor(colors...)`. -/
def Captcha.SetFrontColor (c : Captcha) (colors : List Color) : Captcha :=
  if colors.length > 0 then { c with frontColors := appendAll colors } else c

/-- Go `SetBkgColor(colors...)`. -/
def Captcha.SetBkgColor (c : Captcha) (colors : List Color) : Captcha :=
  if colors.length > 0 then { c with bkgColors := appendAll colors } else c

/-- Go `SetSize(w, h)`. -/
def Captcha.SetSize (c : Captcha) (w h : Int) : Captcha :=
  let w := if w < 48 then 48 else w
  let h := if h < 20 then 20 else h
  { c with size := ⟨w, h⟩ }

/-! ## Images

`image.go` of the repository is not among the sources. An image is modelled by
its size and by the log of the drawing calls made on it. -/

/-- One character drawn on its own square canvas and rotated: the arguments of
`strImg.DrawString` and of `strImg.Rotate`, and the size of the rotated canvas. -/
structure Glyph where
  font : Font
  color : Color
  char : Nat
  fsize : Int
  offX : Int
  offY : Int
  angle : Int
  w : Int
  h : Int
  deriving DecidableEq, Repr

/-- A drawing call received by an image. `distortFrom` is `src.distortTo(this, a, p)`:
the size and the log of `src`, and the numerators of `a` and `p` over `2^63`. -/
inductive DrawOp
  | FillNoiseBkg (colors : List Color)
  | DrawCircle (x y r : Int) (fill : Bool) (c : Color)
  | DrawLine (x0 y0 x1 y1 : Int) (c : Color)
  | Draw (minX minY maxX maxY : Int) (g : Glyph)
  | distortFrom (w h : Int) (ops : List DrawOp) (amp period : Nat)

/-- An `*Image`: its bounds size and the calls it received, oldest first. -/
structure Image where
  width : Int
  height : Int
  ops : List DrawOp

/-- Record one more call on an image; the size is untouched. -/
def Image.push (img : Image) (op : DrawOp) : Image :=
  { img with ops := img.ops ++ [op] }

/-- Modelled from the spec: `NewImage` (in `image.go`, not among the sources) is the
spec's `create(width, height)`: a canvas of that size, failing with an invalid
dimension if `width <= 0` or `height <= 0`. -/
def NewImage (w h : Int) : Except Fault Image :=
  if w ≤ 0 ∨ h ≤ 0 then .error .invalidDimension else .ok ⟨w, h, []⟩

/-- Modelled from the spec: `img.Bounds().Size()` is the spec's `size()`, a pure
query giving (width, height). -/
def Image.Size (img : Image) : Point := ⟨img.width, img.height⟩

/-- Modelled from the spec: `FillNoiseBkg` (in `image.go`) is the spec's
`fillNoiseBackground(colors)`, which requires `colors` non-empty and keeps the size. -/
def Image.FillNoiseBkg (img : Image) (colors : List Color) : Except Fault Image :=
  if colors.length = 0 then .error .emptyPalette else .ok (img.push (.FillNoiseBkg colors))

/-- Modelled from the spec: `distortTo` (in `image.go`) is the spec's `distort`, which
writes the remapped source into the destination and keeps the destination size. -/
def Image.distortTo (src dst : Image) (amp period : Nat) : Image :=
  dst.push (.distortFrom src.width src.height src.ops amp period)

/-- Go `image.Rect(x0, y0, x1, y1)`: the well-formed rectangle, coordinates swapped
where needed, as (Min.X, Min.Y, Max.X, Max.Y). -/
def Rect (x0 y0 x1 y1 : Int) : Int × Int × Int × Int :=
  let (x0, x1) := if x0 > x1 then (x1, x0) else (x0, x1)
  let (y0, y1) := if y0 > y1 then (y1, y0) else (y0, y1)
  (x0, y0, x1, y1)

/-- What a render reads from outside the configuration: the package-level random
source, the two sources seeded from the clock in `drawNoises` and `drawString`,
and the bounds size of `Rotate`'s result (`image.go`) for a square canvas of the
given side turned by the given number of degrees. -/
structure Env where
  glob : Rng
  noise : Rng
  text : Rng
  rotSize : Int → Int → Point

/-! ## The composer -/

/-- Go `randFont()`, on the package-level random source. -/
def Captcha.randFont (c : Captcha) (g : Rng) : Except Fault (Font × Rng) := do
  let (k, g) ← g.Intn c.fonts.length
  let f ← indexAt c.fonts k
  pure (f, g)

/-- Go `drawBkg(img)`. -/
def Captcha.drawBkg (c : Captcha) (img : Image) : Except Fault Image :=
  img.FillNoiseBkg c.bkgColors

/-- The first loop of `drawNoises`: `n` more iterations from index `i`. -/
def Captcha.circleLoop (c : Captcha) (size : Point) :
    Nat → Nat → Rng → Image → Except Fault (Image × Rng)
  | 0, _, ra, img => pure (img, ra)
  | n + 1, i, ra, img => do
    let (x, ra) ← ra.Intn size.X
    let (y, ra) ← ra.Intn size.Y
    let (r0, ra) ← ra.Intn (Int.tdiv size.Y 20)
    let r := r0 + 1
    let (colorindex, ra) ← ra.Intn c.frontColors.length
    let col ← indexAt c.frontColors colorindex
    c.circleLoop size n (i + 1) ra (img.push (.DrawCircle x y r (i % 4 != 0) col))

/-- The second loop of `drawNoises`: `n` more iterations from index `i`. -/
def Captcha.lineLoop (c : Captcha) (size : Point) :
    Nat → Nat → Rng → Image → Except Fault (Image × Rng)
  | 0, _, ra, img => pure (img, ra)
  | n + 1, i, ra, img => do
    let (x, ra) ← ra.Intn size.X
    let (y, ra) ← ra.Intn size.Y
    let o := powNegOne i
    let (w0, ra) ← ra.Intn size.Y
    let w := w0 * o
    let (h0, ra) ← ra.Intn (Int.tdiv size.Y 10)
    let h := h0 * o
    let (colorindex, ra) ← ra.Intn c.frontColors.length
    let col ← indexAt c.frontColors colorindex
    c.lineLoop size n (i + 1) ra (img.push (.DrawLine x y (x + w) (y + h) col))

/-- Go `drawNoises(img)`, with `ra` the source seeded from the clock. -/
def Captcha.drawNoises (c : Captcha) (img : Image) (ra : Rng) : Except Fault Image := do
  let size := img.Size
  let dlen := c.disturlvl
  let (img, ra) ← c.circleLoop size dlen.toNat 0 ra img
  let (img, _) ← c.lineLoop size dlen.toNat 0 ra img
  pure img

/-- The loop of `drawString` over the remaining iterations `(i, char)`; `r` is the
local random source and `g` the package-level one. -/
def Captcha.glyphLoop (c : Captcha) (rot : Int → Int → Point) (size : Point)
    (fsize gap offset_x offset_y : Int) :
    List (Nat × Nat) → Rng → Rng → Image → Except Fault (Image × Rng)
  | [], _, g, img => pure (img, g)
  | (i, char) :: more, r, g, img => do
    let _strImg ← NewImage size.Y size.Y
    let (colorindex, r) ← r.Intn c.frontColors.length
    let (font, g) ← c.randFont g
    let col ← indexAt c.frontColors colorindex
    let (k, r) ← r.Intn 60
    let angle := k - 30
    let s := rot size.Y angle
    let left := (i : Int) * gap - (s.X - size.Y)
    let top := size.Y - s.Y
    let clip := Rect left top (left + s.X) (top + s.Y)
    let glyph : Glyph := ⟨font, col, char, fsize, offset_x, offset_y, angle, s.X, s.Y⟩
    c.glyphLoop rot size fsize gap offset_x offset_y more r g
      (img.push (.Draw clip.1 clip.2.1 clip.2.2.1 clip.2.2.2 glyph))

/-- Go `drawString(img, str)`. -/
def Captcha.drawString (c : Captcha) (rot : Int → Int → Point) (img : Image)
    (str : GoString) (r g : Rng) : Except Fault (Image × Rng) := do
  let size := img.Size
  let fsize := mulConstTrunc c065 53 size.Y
  let q ← goDiv size.X str.length
  let gap := q - Int.tdiv fsize 6
  let offset_y := mulConstTrunc c02 55 size.Y
  let offset_x ← goDiv size.X (str.length + 1)
  c.glyphLoop rot size fsize gap offset_x offset_y (rangeStr str) r g img

/-- The numerator over `2^63` of `base + rand.Float64() * base` for the value `n / 2^63`
of `rand.Float64()` and an integer-valued `base`: one rounding for the product, one for
the sum. -/
def scaleDraw (base n : Nat) : Nat :=
  roundF64 (base * 2 ^ 63 + roundF64 (n * base))

/-- Go `CreateImage(str)`. -/
def Captcha.CreateImage (c : Captcha) (str : GoString) (env : Env) : Except Fault Image := do
  let str := if str.length = 0 then unkown else str
  let dst ← NewImage c.size.X c.size.Y
  let tmp ← NewImage c.size.X c.size.Y
  let dst ← c.drawBkg dst
  let tmp ← c.drawNoises tmp env.noise
  let (tmp, g) ← c.drawString env.rotSize tmp str env.text env.glob
  let (k1, g) := g.Float64
  let (k2, _) := g.Float64
  pure (tmp.distortTo dst (scaleDraw 3 k1) (scaleDraw 70 k2))

/-! ## Reading a finished image -/

/-- The glyphs composited on a layer, in call order. -/
def glyphsOf (ops : List DrawOp) : List Glyph :=
  ops.filterMap fun op => match op with
    | .Draw _ _ _ _ g => some g
    | _ => none

/-- Left edges (Min.X) of the rectangles of the `draw.Draw` calls, in call order. -/
def leftEdges (ops : List DrawOp) : List Int :=
  ops.filterMap fun op => match op with
    | .Draw x _ _ _ _ => some x
    | _ => none

/-- The log of the working layer that was warped into a finished image. -/
def workingOps (img : Image) : List DrawOp :=
  match img.ops.getLast? with
  | some (.distortFrom _ _ ops _ _) => ops
  | _ => []

/-- Whether a call is a `DrawCircle`. -/
def DrawOp.isCircle : DrawOp → Bool
  | .DrawCircle _ _ _ _ _ => true
  | _ => false

/-- Whether a call is a `DrawLine`. -/
def DrawOp.isLine : DrawOp → Bool
  | .DrawLine _ _ _ _ _ => true
  | _ => false

/-! ## Sample inputs -/

/-- A random source replaying the listed draws, then zeros. -/
def rngOf (xs : List Nat) : Rng := ⟨fun i => xs.getD i 0, 0⟩

/-- A stand-in for `Rotate`: the rotated canvas is four pixels larger each way. -/
def rotPad (side _deg : Int) : Point := ⟨side + 4, side + 4⟩

/-- A sample environment. -/
def env0 : Env :=
  { glob := rngOf [1, 0, 5, 7], noise := rngOf [3, 14, 15, 92, 65, 35, 89, 79],
    text := rngOf [0, 0, 0, 59, 2, 31], rotSize := rotPad }

/-- The default configuration with one font loaded. -/
def cfg1 : Captcha := New.AddFont (some ⟨1⟩)


/-! ## Configurations reachable through the public methods -/

/-- The configuration invariant: at least one front colour and one background
colour, a positive disturbance level, and a size of at least 48 by 20. -/
def Captcha.Valid (c : Captcha) : Prop :=
  1 ≤ c.frontColors.length ∧ 1 ≤ c.bkgColors.length ∧ 0 < c.disturlvl ∧
    48 ≤ c.size.X ∧ 20 ≤ c.size.Y

/-- One call of a configuration method, with its arguments. -/
inductive Call
  | SetDisturbance (d : Int)
  | SetFrontColor (colors : List Color)
  | SetBkgColor (colors : List Color)
  | SetSize (w h : Int)
  | AddFont (parsed : Option Font)

/-- The configuration after one call. -/
def Captcha.call (c : Captcha) : Call → Captcha
  | .SetDisturbance d => c.SetDisturbance d
  | .SetFrontColor colors => c.SetFrontColor colors
  | .SetBkgColor colors => c.SetBkgColor colors
  | .SetSize w h => c.SetSize w h
  | .AddFont parsed => c.AddFont parsed

/-- The configuration after a sequence of calls, first call first. -/
def Captcha.calls (c : Captcha) (cs : List Call) : Captcha :=
  cs.foldl Captcha.call c

/-- The `draw.Draw` call that one iteration `(i, char)` of `drawString` makes when
its angle draw is `k`, its font `font` and its colour `col`. -/
def glyphDraw (rot : Int → Int → Point) (size : Point) (fsize gap offset_x offset_y : Int)
    (it : Nat × Nat) (font : Font) (col : Color) (k : Int) : DrawOp :=
  let s := rot size.Y (k - 30)
  let left := (it.1 : Int) * gap - (s.X - size.Y)
  let top := size.Y - s.Y
  let clip := Rect left top (left + s.X) (top + s.Y)
  .Draw clip.1 clip.2.1 clip.2.2.1 clip.2.2.2
    ⟨font, col, it.2, fsize, offset_x, offset_y, k - 30, s.X, s.Y⟩

/-- The call `op` is what iteration `it` of `drawString` draws, for some font of the
configuration, some front colour and some outcome `k` of `r.Intn(60)`. -/
def drawnAs (c : Captcha) (rot : Int → Int → Point) (size : Point)
    (fsize gap offset_x offset_y : Int) (it : Nat × Nat) (op : DrawOp) : Prop :=
  ∃ font col k, font ∈ c.fonts ∧ col ∈ c.frontColors ∧ 0 ≤ k ∧ k < 60 ∧
    op = glyphDraw rot size fsize gap offset_x offset_y it font col k

/-- The point size `fsize` of `drawString` on a canvas of height `h`. -/
def fsizeOf (h : Int) : Int := mulConstTrunc c065 53 h

/-- The value `gap` of `drawString` for a canvas of the given size and a string of
`len` bytes (`len` non-zero). -/
def gapOf (size : Point) (len : Nat) : Int :=
  Int.tdiv size.X len - Int.tdiv (fsizeOf size.Y) 6

/-- The value `offset_x` of `drawString`. -/
def offsetXOf (size : Point) (len : Nat) : Int := Int.tdiv size.X (len + 1)

/-- The value `offset_y` of `drawString`. -/
def offsetYOf (h : Int) : Int := mulConstTrunc c02 55 h

/-- The string `CreateImage` hands to `drawString`. -/
def drawnText (str : GoString) : GoString := if str.length = 0 then unkown else str

/-- The glyphs a run of `drawString` composited, when it returned. -/
def drawnGlyphs (res : Except Fault (Image × Rng)) : Option (List Glyph) :=
  match res with
  | .ok (img, _) => some (glyphsOf img.ops)
  | .error _ => none

/-- The left edges of the rectangles a run of `drawString` drew into, when it returned. -/
def drawnLefts (res : Except Fault (Image × Rng)) : Option (List Int) :=
  match res with
  | .ok (img, _) => some (leftEdges img.ops)
  | .error _ => none

/-- The fault of a render that returned no image. -/
def faultOf? (res : Except Fault Image) : Option Fault :=
  match res with
  | .ok _ => none
  | .error e => some e

/-- The runes of the glyphs on the working layer of a finished image. -/
def runesOf? (res : Except Fault Image) : Option (List Nat) :=
  match res with
  | .ok img => some ((glyphsOf (workingOps img)).map Glyph.char)
  | .error _ => none

/-- The text `"A"`. -/
def textA : GoString := [0x41]

/-- The text `"éa"`: two characters, three bytes. -/
def textEA : GoString := [0xC3, 0xA9, 0x61]

/-- The text `"A1b2"`. -/
def textA1b2 : GoString := [0x41, 0x31, 0x62, 0x32]

/-- An empty canvas of the default size. -/
def canvas0 : Image := ⟨82, 32, []⟩

/-- The zero value `Captcha{}`: no colours, level 0, no fonts, size 0 by 0. -/
def zeroCaptcha : Captcha := ⟨[], [], 0, [], ⟨0, 0⟩⟩

/-- The zero value given a background colour and a font, resized to 100 by 40: it holds
a font but no front colour. -/
def cfgNoFront : Captcha :=
  ((zeroCaptcha.SetBkgColor [White]).AddFont (some ⟨1⟩)).SetSize 100 40

/-- The zero value given a front colour and a font, resized to 100 by 40: it holds a
font but no background colour. -/
def cfgNoBkg : Captcha :=
  ((zeroCaptcha.SetFrontColor [Black]).AddFont (some ⟨1⟩)).SetSize 100 40

/-- The horizontal and vertical glyph origins on the working layer of a finished image. -/
def originsOf? (res : Except Fault Image) : Option (List (Int × Int)) :=
  match res with
  | .ok img => some ((glyphsOf (workingOps img)).map fun gl => (gl.offX, gl.offY))
  | .error _ => none

/-- A sample sequence of configuration calls. -/
def calls0 : List Call :=
  [.AddFont (some ⟨1⟩), .SetSize 10 10, .SetDisturbance 16, .SetFrontColor []]

/-! ## Rounding lemmas -/

theorem shiftOf_spec (fuel : Nat) : ∀ n : Nat, n < 2 ^ (53 + fuel) →
    n / 2 ^ shiftOf fuel n < 2 ^ 53 ∧
      (shiftOf fuel n = 0 ∨ 2 ^ 52 ≤ n / 2 ^ shiftOf fuel n) := by
  induction fuel with
  | zero => intro n h; simpa [shiftOf] using h
  | succ f ih =>
    intro n h
    unfold shiftOf
    by_cases hn : n < 2 ^ 53
    · rw [if_pos hn]
      refine ⟨?_, Or.inl rfl⟩
      rw [pow_zero, Nat.div_one]
      exact hn
    · rw [if_neg hn]
      have h2 : n / 2 < 2 ^ (53 + f) := by
        have : 2 ^ (53 + (f + 1)) = 2 * 2 ^ (53 + f) := by ring
        omega
      obtain ⟨a, b⟩ := ih (n / 2) h2
      have e : n / 2 ^ (1 + shiftOf f (n / 2)) = n / 2 / 2 ^ shiftOf f (n / 2) := by
        rw [pow_add, pow_one, Nat.div_div_eq_div_mul]
      rw [e]
      refine ⟨a, Or.inr ?_⟩
      rcases b with b | b
      · rw [b, pow_zero, Nat.div_one]; omega
      · exact b

theorem lt_pow_fuel (n : Nat) : n < 2 ^ (53 + n) :=
  lt_of_lt_of_le (Nat.lt_two_pow n) (Nat.pow_le_pow_right (by norm_num) (by omega))

/-- Shape of the rounding: exact below `2^53`, otherwise down or up to a multiple of `2^s`. -/
theorem roundF64_cases (n : Nat) :
    (roundF64 n = n ∧ n < 2 ^ 53) ∨
    ∃ s, 0 < s ∧ 2 ^ 52 ≤ n / 2 ^ s ∧
      (roundF64 n = n / 2 ^ s * 2 ^ s ∨
        (roundF64 n = (n / 2 ^ s + 1) * 2 ^ s ∧ 2 ^ (s - 1) ≤ n % 2 ^ s)) := by
  obtain ⟨a, b⟩ := shiftOf_spec n n (lt_pow_fuel n)
  by_cases hs : shiftOf n n = 0
  · left
    refine ⟨by simp [roundF64, hs], ?_⟩
    rw [hs, pow_zero, Nat.div_one] at a
    exact a
  · right
    refine ⟨shiftOf n n, Nat.pos_of_ne_zero hs, ?_, ?_⟩
    · rcases b with b | b
      · exact absurd b hs
      · exact b
    · simp only [roundF64, hs, if_false]
      split_ifs with h1 h2 h3
      · left; rfl
      · right; exact ⟨rfl, by omega⟩
      · left; rfl
      · right; exact ⟨rfl, by omega⟩

theorem round_arith (n r P T : Nat) (h1 : T + r = n) (h2 : 2 ^ 52 * (2 * P) ≤ T) :
    2 ^ 53 * T ≤ (2 ^ 53 + 1) * n ∧ (P ≤ r → 2 ^ 53 * (T + 2 * P) ≤ (2 ^ 53 + 1) * n) := by
  constructor
  · omega
  · intro h; omega

/-- Rounding moves a value up by at most one part in `2^53`. -/
theorem roundF64_le (n : Nat) : 2 ^ 53 * roundF64 n ≤ (2 ^ 53 + 1) * n := by
  rcases roundF64_cases n with ⟨e, _⟩ | ⟨s, hs, hq, hr⟩
  · rw [e]; omega
  · obtain ⟨t, rfl⟩ : ∃ t, s = t + 1 := ⟨s - 1, by omega⟩
    simp only [Nat.add_sub_cancel] at hr
    have hP : 2 ^ (t + 1) = 2 * 2 ^ t := by ring
    have hdm : n / 2 ^ (t + 1) * 2 ^ (t + 1) + n % 2 ^ (t + 1) = n := by
      rw [Nat.mul_comm]; exact Nat.div_add_mod n (2 ^ (t + 1))
    have hmul : 2 ^ 52 * (2 * 2 ^ t) ≤ n / 2 ^ (t + 1) * 2 ^ (t + 1) := by
      rw [← hP]; exact Nat.mul_le_mul_right _ hq
    obtain ⟨k1, k2⟩ := round_arith n _ _ _ hdm hmul
    rcases hr with e | ⟨e, hh⟩
    · rw [e]; exact k1
    · rw [e, Nat.add_mul, one_mul]
      have := k2 hh
      rw [← hP] at this
      exact this

/-- Rounding never goes below a multiple of `2^t` that the value has reached, when the
value has at most `53 + t` bits. -/
theorem roundF64_ge (n K t : Nat) (hK : K * 2 ^ t ≤ n) (hn : n < 2 ^ (53 + t)) :
    K * 2 ^ t ≤ roundF64 n := by
  rcases roundF64_cases n with ⟨e, _⟩ | ⟨s, hs, hq, hr⟩
  · rw [e]; exact hK
  · have hst : s ≤ t := by
      by_contra hc
      have h1 : 2 ^ (53 + t) ≤ 2 ^ (52 + s) := Nat.pow_le_pow_right (by norm_num) (by omega)
      have h2 : 2 ^ 52 * 2 ^ s ≤ n / 2 ^ s * 2 ^ s := Nat.mul_le_mul_right _ hq
      have h3 : n / 2 ^ s * 2 ^ s ≤ n := Nat.div_mul_le_self n (2 ^ s)
      have h4 : 2 ^ (52 + s) = 2 ^ 52 * 2 ^ s := by ring
      omega
    have hfloor : K * 2 ^ t ≤ n / 2 ^ s * 2 ^ s := by
      have e : K * 2 ^ t = K * 2 ^ (t - s) * 2 ^ s := by
        rw [Nat.mul_assoc, ← pow_add, Nat.sub_add_cancel hst]
      rw [e]
      apply Nat.mul_le_mul_right
      rw [Nat.le_div_iff_mul_le (by positivity), ← e]
      exact hK
    rcases hr with e | ⟨e, _⟩
    · rw [e]; exact hfloor
    · rw [e, Nat.add_mul]; omega

/-- The value `int(float64(h) * 0.2)` is `h / 5` for heights below `2^48`. -/
theorem offsetY_exact (h : Nat) (hh : h < 2 ^ 48) :
    roundF64 (roundF64 h * c02) / 2 ^ 55 = h / 5 := by
  have e1 : roundF64 h = h := by
    rcases roundF64_cases h with ⟨e, _⟩ | ⟨s, _, hq, _⟩
    · exact e
    · have := Nat.div_le_self h (2 ^ s)
      omega
  rw [e1]
  have lo := roundF64_ge (h * c02) (h / 5) 55 (by unfold c02; omega) (by unfold c02; omega)
  have hi := roundF64_le (h * c02)
  unfold c02 at lo hi ⊢
  omega

/-- The value `int(float64(h) * 0.65)` is `13 * h / 20` for heights below `2^48`. -/
theorem fsize_exact (h : Nat) (hh : h < 2 ^ 48) :
    roundF64 (roundF64 h * c065) / 2 ^ 53 = 13 * h / 20 := by
  have e1 : roundF64 h = h := by
    rcases roundF64_cases h with ⟨e, _⟩ | ⟨s, _, hq, _⟩
    · exact e
    · have := Nat.div_le_self h (2 ^ s)
      omega
  rw [e1]
  have lo := roundF64_ge (h * c065) (13 * h / 20) 53 (by unfold c065; omega)
    (by unfold c065; omega)
  have hi := roundF64_le (h * c065)
  unfold c065 at lo hi ⊢
  omega

/-- The value `int(float64(h) * 0.2)` stays below `h`, whatever the height. -/
theorem offsetY_lt (h : Nat) (hh : 0 < h) : roundF64 (roundF64 h * c02) / 2 ^ 55 < h := by
  have a := roundF64_le h
  have b := roundF64_le (roundF64 h * c02)
  unfold c02 at b ⊢
  rw [Nat.div_lt_iff_lt_mul (by norm_num)]
  omega

/-! ## Random draws and indexing -/

theorem Intn_ok (g : Rng) (n : Int) (h : 0 < n) :
    g.Intn n = .ok (((g.draws g.pos % n.toNat : Nat) : Int), ⟨g.draws, g.pos + 1⟩) := by
  simp [Rng.Intn, not_le.mpr h]

theorem Intn_err (g : Rng) (n : Int) (h : n ≤ 0) : g.Intn n = .error .intnArg := by
  simp [Rng.Intn, h]

theorem Intn_range (g g' : Rng) (n k : Int) (h : g.Intn n = .ok (k, g')) :
    0 < n ∧ 0 ≤ k ∧ k < n := by
  unfold Rng.Intn at h
  split at h
  · cases h
  · injection h with h
    injection h with h1 h2
    subst h1
    have hn : 0 < n := by omega
    refine ⟨hn, by positivity, ?_⟩
    have : g.draws g.pos % n.toNat < n.toNat := Nat.mod_lt _ (by omega)
    omega

theorem indexAt_ok {α : Type} (xs : List α) (k : Int) (h0 : 0 ≤ k) (h1 : k < xs.length) :
    ∃ x, indexAt xs k = .ok x := by
  unfold indexAt
  rw [if_neg (by omega)]
  have hlt : k.toNat < xs.length := by omega
  rw [List.get?_eq_get hlt]
  exact ⟨_, rfl⟩

theorem indexAt_mem {α : Type} (xs : List α) (k : Int) (x : α) (h : indexAt xs k = .ok x) :
    x ∈ xs := by
  unfold indexAt at h
  split at h
  · cases h
  · split at h
    · rename_i y hy
      injection h with h
      subst h
      exact List.get?_mem hy
    · cases h

theorem indexAt_draw {α : Type} (xs : List α) (d : Nat) (h : 0 < xs.length) :
    ∃ x, indexAt xs ((d % (xs.length : Int).toNat : Nat) : Int) = .ok x := by
  apply indexAt_ok
  · positivity
  · have : d % (xs.length : Int).toNat < (xs.length : Int).toNat := Nat.mod_lt _ (by omega)
    omega

/-! ## The noise loops -/

theorem circleLoop_log (c : Captcha) (size : Point) :
    ∀ (n i : Nat) (ra : Rng) (img img' : Image) (ra' : Rng),
      c.circleLoop size n i ra img = .ok (img', ra') →
      img'.width = img.width ∧ img'.height = img.height ∧
        ∃ new, img'.ops = img.ops ++ new ∧ new.length = n ∧
          ∀ op ∈ new, op.isCircle = true := by
  intro n
  induction n with
  | zero =>
    intro i ra img img' ra' h
    simp only [Captcha.circleLoop, pure, Except.pure] at h
    injection h with h
    injection h with h1 h2
    subst h1
    exact ⟨rfl, rfl, [], by simp, rfl, by simp⟩
  | succ n ih =>
    intro i ra img img' ra' h
    simp only [Captcha.circleLoop, bind, Except.bind] at h
    split at h
    · cases h
    · split at h
      · cases h
      · split at h
        · cases h
        · split at h
          · cases h
          · split at h
            · cases h
            · obtain ⟨hw, hh, new, ho, hl, hall⟩ := ih _ _ _ _ _ h
              simp only [Image.push] at hw hh ho
              refine ⟨hw, hh, _, ho.trans (List.append_assoc _ _ _), by simp [hl], ?_⟩
              intro op hop
              rcases List.mem_append.mp hop with e | e
              · rw [List.mem_singleton.mp e]; rfl
              · exact hall op e

theorem lineLoop_log (c : Captcha) (size : Point) :
    ∀ (n i : Nat) (ra : Rng) (img img' : Image) (ra' : Rng),
      c.lineLoop size n i ra img = .ok (img', ra') →
      img'.width = img.width ∧ img'.height = img.height ∧
        ∃ new, img'.ops = img.ops ++ new ∧ new.length = n ∧
          ∀ op ∈ new, op.isLine = true := by
  intro n
  induction n with
  | zero =>
    intro i ra img img' ra' h
    simp only [Captcha.lineLoop, pure, Except.pure] at h
    injection h with h
    injection h with h1 h2
    subst h1
    exact ⟨rfl, rfl, [], by simp, rfl, by simp⟩
  | succ n ih =>
    intro i ra img img' ra' h
    simp only [Captcha.lineLoop, bind, Except.bind] at h
    split at h
    · cases h
    · split at h
      · cases h
      · split at h
        · cases h
        · split at h
          · cases h
          · split at h
            · cases h
            · split at h
              · cases h
              · obtain ⟨hw, hh, new, ho, hl, hall⟩ := ih _ _ _ _ _ h
                simp only [Image.push] at hw hh ho
                refine ⟨hw, hh, _, ho.trans (List.append_assoc _ _ _), by simp [hl], ?_⟩
                intro op hop
                rcases List.mem_append.mp hop with e | e
                · rw [List.mem_singleton.mp e]; rfl
                · exact hall op e

theorem tdiv_pos_of_le (y d : Int) (hd : 0 < d) (h : d ≤ y) : 0 < Int.tdiv y d := by
  rw [Int.tdiv_eq_ediv (by omega) (by omega)]
  exact Int.le_ediv_of_mul_le hd (by omega : 1 * d ≤ y)

theorem circleLoop_ok (c : Captcha) (size : Point) (hX : 0 < size.X) (hY : 20 ≤ size.Y)
    (hF : 0 < c.frontColors.length) :
    ∀ (n i : Nat) (ra : Rng) (img : Image),
      ∃ img' ra', c.circleLoop size n i ra img = .ok (img', ra') := by
  have hY1 : 0 < size.Y := by omega
  have hY20 : 0 < Int.tdiv size.Y 20 := tdiv_pos_of_le _ _ (by norm_num) hY
  have hF' : (0 : Int) < c.frontColors.length := by exact_mod_cast hF
  intro n
  induction n with
  | zero => intro i ra img; exact ⟨img, ra, rfl⟩
  | succ n ih =>
    intro i ra img
    simp only [Captcha.circleLoop, bind, Except.bind, Intn_ok _ _ hX, Intn_ok _ _ hY1,
      Intn_ok _ _ hY20, Intn_ok _ _ hF']
    obtain ⟨x, hx⟩ := indexAt_draw c.frontColors
      (ra.draws (ra.pos + 1 + 1 + 1)) hF
    rw [hx]
    exact ih _ _ _

theorem lineLoop_ok (c : Captcha) (size : Point) (hX : 0 < size.X) (hY : 20 ≤ size.Y)
    (hF : 0 < c.frontColors.length) :
    ∀ (n i : Nat) (ra : Rng) (img : Image),
      ∃ img' ra', c.lineLoop size n i ra img = .ok (img', ra') := by
  have hY1 : 0 < size.Y := by omega
  have hY10 : 0 < Int.tdiv size.Y 10 := tdiv_pos_of_le _ _ (by norm_num) (by omega)
  have hF' : (0 : Int) < c.frontColors.length := by exact_mod_cast hF
  intro n
  induction n with
  | zero => intro i ra img; exact ⟨img, ra, rfl⟩
  | succ n ih =>
    intro i ra img
    simp only [Captcha.lineLoop, bind, Except.bind, Intn_ok _ _ hX, Intn_ok _ _ hY1,
      Intn_ok _ _ hY10, Intn_ok _ _ hF']
    obtain ⟨x, hx⟩ := indexAt_draw c.frontColors
      (ra.draws (ra.pos + 1 + 1 + 1 + 1)) hF
    rw [hx]
    exact ih _ _ _

/-- What `drawNoises` logs when it returns. -/
theorem drawNoises_log (c : Captcha) (img img' : Image) (ra : Rng)
    (h : c.drawNoises img ra = .ok img') :
    img'.width = img.width ∧ img'.height = img.height ∧
      ∃ circles lines, img'.ops = img.ops ++ circles ++ lines ∧
        circles.length = c.disturlvl.toNat ∧ lines.length = c.disturlvl.toNat ∧
        (∀ op ∈ circles, op.isCircle = true) ∧ ∀ op ∈ lines, op.isLine = true := by
  simp only [Captcha.drawNoises, bind, Except.bind, pure, Except.pure] at h
  split at h
  · cases h
  · rename_i p1 h1
    split at h
    · cases h
    · rename_i p2 h2
      injection h with h
      subst h
      obtain ⟨w1, e1, cs, o1, l1, a1⟩ := circleLoop_log c _ _ _ _ _ _ _ h1
      obtain ⟨w2, e2, ls, o2, l2, a2⟩ := lineLoop_log c _ _ _ _ _ _ _ h2
      exact ⟨w2.trans w1, e2.trans e1, cs, ls, by rw [o2, o1], l1, l2, a1, a2⟩

/-- On a canvas at least one pixel wide and twenty high, with a front colour to
pick, `drawNoises` returns. -/
theorem drawNoises_ok (c : Captcha) (img : Image) (ra : Rng) (hX : 0 < img.width)
    (hY : 20 ≤ img.height) (hF : 0 < c.frontColors.length) :
    ∃ img', c.drawNoises img ra = .ok img' := by
  obtain ⟨i1, r1, h1⟩ := circleLoop_ok c img.Size hX hY hF c.disturlvl.toNat 0 ra img
  obtain ⟨i2, r2, h2⟩ := lineLoop_ok c img.Size hX hY hF c.disturlvl.toNat 0 r1 i1
  refine ⟨i2, ?_⟩
  simp only [Captcha.drawNoises, bind, Except.bind, pure, Except.pure, h1, h2]

/-! ## The glyph loop -/

theorem randFont_mem (c : Captcha) (g g' : Rng) (f : Font)
    (h : c.randFont g = .ok (f, g')) : f ∈ c.fonts := by
  simp only [Captcha.randFont, bind, Except.bind, pure, Except.pure] at h
  split at h
  · cases h
  · split at h
    · cases h
    · rename_i x hx
      injection h with h
      injection h with h1 h2
      subst h1
      exact indexAt_mem _ _ _ hx

theorem randFont_ok (c : Captcha) (g : Rng) (h : 0 < c.fonts.length) :
    ∃ f g', c.randFont g = .ok (f, g') := by
  have h' : (0 : Int) < c.fonts.length := by exact_mod_cast h
  obtain ⟨x, hx⟩ := indexAt_draw c.fonts (g.draws g.pos) h
  refine ⟨x, ⟨g.draws, g.pos + 1⟩, ?_⟩
  simp only [Captcha.randFont, bind, Except.bind, pure, Except.pure, Intn_ok _ _ h', hx]

theorem randFont_err (c : Captcha) (g : Rng) (h : c.fonts.length = 0) :
    c.randFont g = .error .intnArg := by
  simp only [Captcha.randFont, bind, Except.bind, Intn_err g c.fonts.length (by omega)]

theorem glyphLoop_log (c : Captcha) (rot : Int → Int → Point) (size : Point)
    (fsize gap ox oy : Int) :
    ∀ (its : List (Nat × Nat)) (r g : Rng) (img img' : Image) (g' : Rng),
      c.glyphLoop rot size fsize gap ox oy its r g img = .ok (img', g') →
      img'.width = img.width ∧ img'.height = img.height ∧
        ∃ new, img'.ops = img.ops ++ new ∧
          List.Forall₂ (drawnAs c rot size fsize gap ox oy) its new := by
  intro its
  induction its with
  | nil =>
    intro r g img img' g' h
    simp only [Captcha.glyphLoop, pure, Except.pure] at h
    injection h with h
    injection h with h1 h2
    subst h1
    exact ⟨rfl, rfl, [], by simp, List.Forall₂.nil⟩
  | cons it its ih =>
    intro r g img img' g' h
    obtain ⟨i, char⟩ := it
    simp only [Captcha.glyphLoop, bind, Except.bind] at h
    split at h
    · cases h
    · split at h
      · cases h
      · split at h
        · cases h
        · rename_i pf hf
          split at h
          · cases h
          · rename_i col hcol
            split at h
            · cases h
            · rename_i pk hk
              obtain ⟨hw, hh, new, ho, hall⟩ := ih _ _ _ _ _ h
              simp only [Image.push] at hw hh ho
              refine ⟨hw, hh, _, ho.trans (List.append_assoc _ _ _), ?_⟩
              refine List.Forall₂.cons ?_ hall
              obtain ⟨-, k0, k60⟩ := Intn_range _ _ _ _ hk
              exact ⟨pf.1, col, pk.1, randFont_mem c _ _ _ hf, indexAt_mem _ _ _ hcol,
                k0, k60, rfl⟩

theorem NewImage_ok (w h : Int) (hw : 0 < w) (hh : 0 < h) : NewImage w h = .ok ⟨w, h, []⟩ := by
  simp [NewImage, not_le.mpr hw, not_le.mpr hh]

theorem glyphLoop_ok (c : Captcha) (rot : Int → Int → Point) (size : Point)
    (fsize gap ox oy : Int) (hY : 0 < size.Y) (hF : 0 < c.frontColors.length)
    (hT : 0 < c.fonts.length) :
    ∀ (its : List (Nat × Nat)) (r g : Rng) (img : Image),
      ∃ img' g', c.glyphLoop rot size fsize gap ox oy its r g img = .ok (img', g') := by
  have hF' : (0 : Int) < c.frontColors.length := by exact_mod_cast hF
  intro its
  induction its with
  | nil => intro r g img; exact ⟨img, g, rfl⟩
  | cons it its ih =>
    intro r g img
    obtain ⟨i, char⟩ := it
    obtain ⟨f, g1, hf⟩ := randFont_ok c g hT
    obtain ⟨x, hx⟩ := indexAt_draw c.frontColors (r.draws r.pos) hF
    simp only [Captcha.glyphLoop, bind, Except.bind, NewImage_ok _ _ hY hY, Intn_ok _ _ hF',
      hf, hx, Intn_ok _ 60 (by norm_num)]
    exact ih _ _ _

/-- Without a font the first iteration of the loop panics. -/
theorem glyphLoop_err (c : Captcha) (rot : Int → Int → Point) (size : Point)
    (fsize gap ox oy : Int) (hT : c.fonts.length = 0) (it : Nat × Nat)
    (its : List (Nat × Nat)) (r g : Rng) (img : Image) :
    (∃ e, c.glyphLoop rot size fsize gap ox oy (it :: its) r g img = .error e) ∧
      (0 < size.Y → 0 < c.frontColors.length →
        c.glyphLoop rot size fsize gap ox oy (it :: its) r g img = .error .intnArg) := by
  obtain ⟨i, char⟩ := it
  constructor
  · simp only [Captcha.glyphLoop, bind, Except.bind]
    split
    · exact ⟨_, rfl⟩
    · split
      · exact ⟨_, rfl⟩
      · rw [randFont_err c _ hT]
        exact ⟨_, rfl⟩
  · intro hY hF
    have hF' : (0 : Int) < c.frontColors.length := by exact_mod_cast hF
    simp only [Captcha.glyphLoop, bind, Except.bind, NewImage_ok _ _ hY hY, Intn_ok _ _ hF',
      randFont_err c _ hT]

theorem rangeStr_cons (b : Fin 256) (rest : GoString) :
    ∃ ch more, rangeStr (b :: rest) = (0, ch) :: more :=
  ⟨_, _, rfl⟩

/-- On a string of single-byte characters `range` yields every byte, at its index. -/
theorem rangeFrom_ascii (str : GoString) (h : ∀ b ∈ str, b.val < 0x80) :
    ∀ i : Nat, rangeFrom 0 i str = (List.range' i str.length).zip (str.map Fin.val) := by
  induction str with
  | nil => intro i; rfl
  | cons b rest ih =>
    intro i
    have hb : b.val < 0x80 := h b (List.mem_cons_self _ _)
    have hd : decodeRune (b :: rest) = (b.val, 1) := by simp [decodeRune, hb]
    have hr := ih (fun x hx => h x (List.mem_cons_of_mem _ hx)) (i + 1)
    simp only [rangeFrom, hd, Nat.sub_self, hr, List.length_cons, List.range'_succ,
      List.map_cons, List.zip_cons_cons]

theorem drawnText_ne_nil (str : GoString) : drawnText str ≠ [] := by
  unfold drawnText
  split
  · simp [unkown]
  · rename_i h
    intro e
    exact h (by simp [e])

/-! ## `drawString` and `CreateImage` -/

/-- What `drawString` logs when it returns. -/
theorem drawString_log (c : Captcha) (rot : Int → Int → Point) (img img' : Image)
    (str : GoString) (r g g' : Rng) (h : c.drawString rot img str r g = .ok (img', g')) :
    str.length ≠ 0 ∧ img'.width = img.width ∧ img'.height = img.height ∧
      ∃ new, img'.ops = img.ops ++ new ∧
        List.Forall₂ (drawnAs c rot img.Size (fsizeOf img.height) (gapOf img.Size str.length)
          (offsetXOf img.Size str.length) (offsetYOf img.height)) (rangeStr str) new := by
  simp only [Captcha.drawString, bind, Except.bind, goDiv] at h
  split at h
  · cases h
  · rename_i q hq
    split at hq
    · cases hq
    · rename_i hlen
      injection hq with hq
      subst hq
      split at h
      · cases h
      · rename_i ox hox
        split at hox
        · cases hox
        · injection hox with hox
          subst hox
          refine ⟨by exact_mod_cast hlen, ?_⟩
          exact glyphLoop_log c rot _ _ _ _ _ _ _ _ _ _ _ h

/-- With a non-empty string, a font and a front colour, on a canvas of positive
height, `drawString` returns. -/
theorem drawString_ok (c : Captcha) (rot : Int → Int → Point) (img : Image)
    (str : GoString) (r g : Rng) (hs : str ≠ []) (hY : 0 < img.height)
    (hF : 0 < c.frontColors.length) (hT : 0 < c.fonts.length) :
    ∃ img' g', c.drawString rot img str r g = .ok (img', g') := by
  have hlen : (str.length : Int) ≠ 0 := by
    have := List.length_pos.mpr hs
    omega
  have hlen1 : (str.length : Int) + 1 ≠ 0 := by omega
  simp only [Captcha.drawString, bind, Except.bind, goDiv, if_neg hlen, if_neg hlen1]
  exact glyphLoop_ok c rot _ _ _ _ _ hY hF hT _ _ _ _

theorem drawString_err (c : Captcha) (rot : Int → Int → Point) (img : Image)
    (str : GoString) (r g : Rng) (hs : str ≠ []) (hT : c.fonts.length = 0) :
    (∃ e, c.drawString rot img str r g = .error e) ∧
      (0 < img.height → 0 < c.frontColors.length →
        c.drawString rot img str r g = .error .intnArg) := by
  obtain ⟨b, rest, rfl⟩ : ∃ b rest, str = b :: rest := by
    cases str with
    | nil => exact absurd rfl hs
    | cons b rest => exact ⟨b, rest, rfl⟩
  have hlen : ((b :: rest).length : Int) ≠ 0 := by simp; omega
  have hlen1 : ((b :: rest).length : Int) + 1 ≠ 0 := by simp; omega
  obtain ⟨ch, more, hr⟩ := rangeStr_cons b rest
  simp only [Captcha.drawString, bind, Except.bind, goDiv, if_neg hlen, if_neg hlen1, hr]
  exact glyphLoop_err c rot _ _ _ _ _ hT _ _ _ _ _

theorem glyphsOf_append (a b : List DrawOp) : glyphsOf (a ++ b) = glyphsOf a ++ glyphsOf b := by
  simp [glyphsOf, List.filterMap_append]

theorem glyphsOf_noise (ops : List DrawOp)
    (h : ∀ op ∈ ops, op.isCircle = true ∨ op.isLine = true) : glyphsOf ops = [] := by
  induction ops with
  | nil => rfl
  | cons op ops ih =>
    have h1 := h op (List.mem_cons_self _ _)
    have h2 := ih (fun o ho => h o (List.mem_cons_of_mem _ ho))
    cases op <;> simp_all [glyphsOf, DrawOp.isCircle, DrawOp.isLine]

/-- The glyphs of the calls the loop makes: one for each iteration, each drawn as
`glyphDraw` says. -/
theorem glyphsOf_drawn (c : Captcha) (rot : Int → Int → Point) (size : Point)
    (fsize gap ox oy : Int) :
    ∀ (its : List (Nat × Nat)) (new : List DrawOp),
      List.Forall₂ (drawnAs c rot size fsize gap ox oy) its new →
      List.Forall₂ (fun it gl => ∃ k : Int, 0 ≤ k ∧ k < 60 ∧ gl.char = it.2 ∧
        gl.fsize = fsize ∧ gl.offX = ox ∧ gl.offY = oy ∧ gl.angle = k - 30 ∧
        gl.w = (rot size.Y (k - 30)).X ∧ gl.h = (rot size.Y (k - 30)).Y ∧
        gl.font ∈ c.fonts ∧ gl.color ∈ c.frontColors) its (glyphsOf new) := by
  intro its new h
  induction h with
  | nil => exact List.Forall₂.nil
  | cons h1 _ ih =>
    obtain ⟨font, col, k, hf, hc, k0, k60, rfl⟩ := h1
    exact List.Forall₂.cons ⟨k, k0, k60, rfl, rfl, rfl, rfl, rfl, rfl, rfl, hf, hc⟩ ih

/-- What a finished image holds when `CreateImage` returns. -/
theorem CreateImage_log (c : Captcha) (str : GoString) (env : Env) (img : Image)
    (h : c.CreateImage str env = .ok img) :
    img.width = c.size.X ∧ img.height = c.size.Y ∧
      ∃ noise gl, workingOps img = noise ++ gl ∧
        (∀ op ∈ noise, op.isCircle = true ∨ op.isLine = true) ∧
        List.Forall₂ (drawnAs c env.rotSize c.size (fsizeOf c.size.Y)
          (gapOf c.size (drawnText str).length) (offsetXOf c.size (drawnText str).length)
          (offsetYOf c.size.Y)) (rangeStr (drawnText str)) gl := by
  simp only [Captcha.CreateImage, bind, Except.bind, pure, Except.pure] at h
  by_cases hd : c.size.X ≤ 0 ∨ c.size.Y ≤ 0
  · simp only [NewImage, if_pos hd] at h
    cases h
  · simp only [NewImage, if_neg hd, Captcha.drawBkg, Image.FillNoiseBkg] at h
    by_cases hB : c.bkgColors.length = 0
    · simp only [if_pos hB] at h
      cases h
    · simp only [if_neg hB] at h
      split at h
      · cases h
      · rename_i tmp1 htmp1
        split at h
        · cases h
        · rename_i p hp
          injection h with h
          subst h
          obtain ⟨w1, h1, cs, ls, o1, -, -, a1, a2⟩ := drawNoises_log c _ _ _ htmp1
          obtain ⟨-, w2, h2, new, o2, all⟩ := drawString_log c _ _ _ _ _ _ _ hp
          refine ⟨rfl, rfl, cs ++ ls, new, ?_, ?_, ?_⟩
          · simp [workingOps, Image.distortTo, Image.push, o2, o1]
          · intro op hop
            rcases List.mem_append.mp hop with e | e
            · exact Or.inl (a1 op e)
            · exact Or.inr (a2 op e)
          · have es : tmp1.Size = c.size := by
              simp only [Image.Size, w1, h1]
            have eh : tmp1.height = c.size.Y := h1
            rw [es, eh] at all
            exact all

/-- A render returns when the configuration has a front colour, a background colour
and a font, and its size is at least 1 by 20. -/
theorem CreateImage_ok (c : Captcha) (str : GoString) (env : Env)
    (hX : 0 < c.size.X) (hY : 20 ≤ c.size.Y) (hF : 0 < c.frontColors.length)
    (hB : 0 < c.bkgColors.length) (hT : 0 < c.fonts.length) :
    ∃ img, c.CreateImage str env = .ok img := by
  have hY1 : 0 < c.size.Y := by omega
  obtain ⟨tmp1, h1⟩ := drawNoises_ok c ⟨c.size.X, c.size.Y, []⟩ env.noise hX hY hF
  obtain ⟨w1, e1, -⟩ := drawNoises_log c _ _ _ h1
  obtain ⟨tmp2, g2, h2⟩ := drawString_ok c env.rotSize tmp1 (drawnText str) env.text env.glob
    (drawnText_ne_nil str) (by rw [e1]; exact hY1) hF hT
  unfold drawnText at h2
  simp only [Captcha.CreateImage, bind, Except.bind, pure, Except.pure, NewImage_ok _ _ hX hY1,
    Captcha.drawBkg, Image.FillNoiseBkg, if_neg (Nat.pos_iff_ne_zero.mp hB), h1, h2]
  exact ⟨_, rfl⟩

/-- Without a font no render returns an image. -/
theorem CreateImage_err (c : Captcha) (str : GoString) (env : Env)
    (hT : c.fonts.length = 0) : ∃ e, c.CreateImage str env = .error e := by
  simp only [Captcha.CreateImage, bind, Except.bind, pure, Except.pure]
  cases h0 : NewImage c.size.X c.size.Y with
  | error e => exact ⟨_, rfl⟩
  | ok dst =>
    simp only []
    cases h1 : c.drawBkg dst with
    | error e => exact ⟨_, rfl⟩
    | ok dst1 =>
      simp only []
      cases h2 : c.drawNoises dst env.noise with
      | error e => exact ⟨_, rfl⟩
      | ok tmp1 =>
        obtain ⟨⟨e, he⟩, -⟩ := drawString_err c env.rotSize tmp1 (drawnText str) env.text
          env.glob (drawnText_ne_nil str) hT
        unfold drawnText at he
        simp only [he]
        exact ⟨_, rfl⟩

/-- Without a font a render of an otherwise valid configuration stops at the panic
of `rand.Intn(0)` in `randFont`. -/
theorem CreateImage_err_valid (c : Captcha) (str : GoString) (env : Env)
    (hT : c.fonts.length = 0) (hv : c.Valid) :
    c.CreateImage str env = .error .intnArg := by
  obtain ⟨hF, hB, -, hX, hY⟩ := hv
  have hX0 : 0 < c.size.X := by omega
  have hY1 : 0 < c.size.Y := by omega
  obtain ⟨tmp1, h1⟩ := drawNoises_ok c ⟨c.size.X, c.size.Y, []⟩ env.noise hX0 hY hF
  obtain ⟨w1, e1, -⟩ := drawNoises_log c _ _ _ h1
  obtain ⟨-, h2⟩ := drawString_err c env.rotSize tmp1 (drawnText str) env.text
    env.glob (drawnText_ne_nil str) hT
  have h3 := h2 (by rw [e1]; exact hY1) hF
  unfold drawnText at h3
  simp only [Captcha.CreateImage, bind, Except.bind, pure, Except.pure,
    NewImage_ok _ _ hX0 hY1, Captcha.drawBkg, Image.FillNoiseBkg,
    if_neg (Nat.pos_iff_ne_zero.mp hB), h1, h3]

/-! ## The configuration methods -/

theorem appendAll_eq (colors : List Color) : appendAll colors = colors := by
  have key : ∀ (cs acc : List Color), cs.foldl (fun acc v => acc ++ [v]) acc = acc ++ cs := by
    intro cs
    induction cs with
    | nil => intro acc; simp
    | cons x xs ih => intro acc; simp [List.foldl, ih]
  simpa [appendAll] using key colors []

theorem SetSize_fields (c : Captcha) (w h : Int) :
    (c.SetSize w h).size = ⟨max w 48, max h 20⟩ ∧
      (c.SetSize w h).frontColors = c.frontColors ∧
      (c.SetSize w h).bkgColors = c.bkgColors ∧
      (c.SetSize w h).fonts = c.fonts := by
  refine ⟨?_, rfl, rfl, rfl⟩
  simp only [Captcha.SetSize]
  congr 1
  · split <;> omega
  · split <;> omega

/-- C7: for all integers `w` and `h`, also zero and negative ones, after `SetSize(w, h)`
the configured size is `(max(w, 48), max(h, 20))`, and the front colours, the
background colours, the disturbance level and the font list are unchanged. -/
theorem SetSize_spec (c : Captcha) (w h : Int) :
    (c.SetSize w h).size = ⟨max w 48, max h 20⟩ ∧
      (c.SetSize w h).frontColors = c.frontColors ∧
      (c.SetSize w h).bkgColors = c.bkgColors ∧
      (c.SetSize w h).disturlvl = c.disturlvl ∧
      (c.SetSize w h).fonts = c.fonts :=
  ⟨(SetSize_fields c w h).1, rfl, rfl, rfl, rfl⟩

theorem Valid_call (c : Captcha) (hv : c.Valid) (k : Call) : (c.call k).Valid := by
  obtain ⟨hF, hB, hD, hX, hY⟩ := hv
  cases k with
  | SetDisturbance d =>
    simp only [Captcha.call, Captcha.SetDisturbance]
    split
    · exact ⟨hF, hB, by assumption, hX, hY⟩
    · exact ⟨hF, hB, hD, hX, hY⟩
  | SetFrontColor colors =>
    simp only [Captcha.call, Captcha.SetFrontColor]
    split
    · rename_i hc
      refine ⟨?_, hB, hD, hX, hY⟩
      simp only [appendAll_eq]
      exact hc
    · exact ⟨hF, hB, hD, hX, hY⟩
  | SetBkgColor colors =>
    simp only [Captcha.call, Captcha.SetBkgColor]
    split
    · rename_i hc
      refine ⟨hF, ?_, hD, hX, hY⟩
      simp only [appendAll_eq]
      exact hc
    · exact ⟨hF, hB, hD, hX, hY⟩
  | SetSize w h =>
    refine ⟨hF, hB, hD, ?_, ?_⟩
    · simp only [Captcha.call, Captcha.SetSize]; split <;> omega
    · simp only [Captcha.call, Captcha.SetSize]; split <;> omega
  | AddFont parsed =>
    cases parsed with
    | none => exact ⟨hF, hB, hD, hX, hY⟩
    | some f => exact ⟨hF, hB, hD, hX, hY⟩

theorem Valid_New : New.Valid := by
  simp [Captcha.Valid, New, NORMAL]

theorem Valid_calls (cs : List Call) : ∀ c : Captcha, c.Valid → (c.calls cs).Valid := by
  induction cs with
  | nil => intro c hv; exact hv
  | cons k ks ih => intro c hv; exact ih _ (Valid_call c hv k)

/-- C8: the configuration invariant (at least one front colour, at least one background
colour, a positive disturbance level, width at least 48, height at least 20) holds for
`New()`, which has level 4 and size 82 by 32, is preserved by every call of
`SetDisturbance`, `SetFrontColor`, `SetBkgColor` and `SetSize` with arbitrary arguments,
and so holds in every configuration reached from `New()` by such calls. -/
theorem Valid_reachable :
    New.Valid ∧ New.disturlvl = 4 ∧ New.size = ⟨82, 32⟩ ∧
      (∀ (c : Captcha) (d : Int), c.Valid → (c.SetDisturbance d).Valid) ∧
      (∀ (c : Captcha) (colors : List Color), c.Valid → (c.SetFrontColor colors).Valid) ∧
      (∀ (c : Captcha) (colors : List Color), c.Valid → (c.SetBkgColor colors).Valid) ∧
      (∀ (c : Captcha) (w h : Int), c.Valid → (c.SetSize w h).Valid) ∧
      ∀ cs : List Call, (New.calls cs).Valid :=
  ⟨Valid_New, rfl, rfl,
    fun c d hv => Valid_call c hv (.SetDisturbance d),
    fun c colors hv => Valid_call c hv (.SetFrontColor colors),
    fun c colors hv => Valid_call c hv (.SetBkgColor colors),
    fun c w h hv => Valid_call c hv (.SetSize w h),
    fun cs => Valid_calls cs New Valid_New⟩

/-! ## Rendering -/

/-- C1, as stated, fails: the zero value `Captcha{}` given a background colour and a
font and resized by `SetSize(100, 40)` holds a font, yet `CreateImage` returns no image:
with no front colour `drawString` panics at `r.Intn(len(c.frontColors))`. With a front
colour and no background colour the render stops at the background fill, which requires
a colour. -/
theorem CreateImage_no_colour :
    0 < cfgNoFront.fonts.length ∧ cfgNoFront.size = ⟨100, 40⟩ ∧
      faultOf? (cfgNoFront.CreateImage textA env0) = some .intnArg ∧
      0 < cfgNoBkg.fonts.length ∧ cfgNoBkg.size = ⟨100, 40⟩ ∧
      faultOf? (cfgNoBkg.CreateImage textA env0) = some .emptyPalette := by
  decide

/-- C1, amended: for every configuration whose size was set by `SetSize(w, h)` with
`w >= 48` and `h >= 20`, and for every text, every image that `CreateImage` returns has
width exactly `w` and height exactly `h`; and `CreateImage` does return one when the
configuration holds at least one font, one front colour and one background colour. -/
theorem CreateImage_size (c : Captcha) (w h : Int) (str : GoString) (env : Env)
    (hw : 48 ≤ w) (hh : 20 ≤ h) :
    (∀ img, (c.SetSize w h).CreateImage str env = .ok img →
        img.width = w ∧ img.height = h) ∧
      (0 < c.frontColors.length → 0 < c.bkgColors.length → 0 < c.fonts.length →
        ∃ img, (c.SetSize w h).CreateImage str env = .ok img ∧
          img.width = w ∧ img.height = h) := by
  obtain ⟨hs, hf, hb, ht⟩ := SetSize_fields c w h
  have hX : (c.SetSize w h).size.X = w := by rw [hs]; exact max_eq_left hw
  have hY : (c.SetSize w h).size.Y = h := by rw [hs]; exact max_eq_left hh
  have part : ∀ img, (c.SetSize w h).CreateImage str env = .ok img →
      img.width = w ∧ img.height = h := by
    intro img hi
    obtain ⟨e1, e2, -⟩ := CreateImage_log _ _ _ _ hi
    exact ⟨e1.trans hX, e2.trans hY⟩
  refine ⟨part, fun hF hB hT => ?_⟩
  obtain ⟨img, hi⟩ := CreateImage_ok (c.SetSize w h) str env (by omega) (by omega)
    (by rw [hf]; exact hF) (by rw [hb]; exact hB) (by rw [ht]; exact hT)
  exact ⟨img, hi, part img hi⟩

/-- C1 amended, at the default configuration with one font, resized to 100 by 40, text
`"A1b2"`. -/
theorem CreateImage_size_witness :
    ∃ img, (cfg1.SetSize 100 40).CreateImage textA1b2 env0 = .ok img ∧
      img.width = 100 ∧ img.height = 40 :=
  (CreateImage_size cfg1 100 40 textA1b2 env0 (by decide) (by decide)).2 (by decide)
    (by decide) (by decide)

/-- C2: for every configuration with zero fonts and for every text, the empty one
included, `CreateImage` fails and returns no image; in a configuration that is valid
but for its fonts the failure is the panic of `rand.Intn(0)` in `randFont`. -/
theorem CreateImage_no_font (c : Captcha) (str : GoString) (env : Env)
    (hT : c.fonts.length = 0) :
    (∃ e, c.CreateImage str env = .error e) ∧
      (c.Valid → c.CreateImage str env = .error .intnArg) :=
  ⟨CreateImage_err c str env hT, CreateImage_err_valid c str env hT⟩

/-- C2 at `New()`, which has no font, and the empty text. -/
theorem CreateImage_no_font_witness :
    (∃ e, New.CreateImage [] env0 = .error e) ∧
      (New.Valid → New.CreateImage [] env0 = .error .intnArg) :=
  CreateImage_no_font New [] env0 (by decide)

/-- C3, as stated, fails: with disturbance level 4 on a canvas 48 wide and 19 high the
first iteration panics at `ra.Intn(size.Y/20)`, before any `DrawCircle` call. -/
theorem drawNoises_low_canvas :
    0 < cfg1.disturlvl ∧
      faultOf? (cfg1.drawNoises ⟨48, 19, []⟩ (rngOf [])) = some .intnArg := by
  decide

/-- C3, amended: for every disturbance level `D > 0`, every canvas at least 1 wide and 20
high and a configuration with at least one front colour, one call of `drawNoises`
issues exactly `D` `DrawCircle` calls followed by exactly `D` `DrawLine` calls, whatever
the random draws are. -/
theorem drawNoises_calls (c : Captcha) (img : Image) (ra : Rng) (hD : 0 < c.disturlvl)
    (hX : 0 < img.width) (hY : 20 ≤ img.height) (hF : 0 < c.frontColors.length) :
    ∃ img' circles lines, c.drawNoises img ra = .ok img' ∧
      img'.ops = img.ops ++ circles ++ lines ∧
      (circles.length : Int) = c.disturlvl ∧ (lines.length : Int) = c.disturlvl ∧
      (∀ op ∈ circles, op.isCircle = true) ∧ ∀ op ∈ lines, op.isLine = true := by
  obtain ⟨img', h⟩ := drawNoises_ok c img ra hX hY hF
  obtain ⟨-, -, cs, ls, ho, l1, l2, a1, a2⟩ := drawNoises_log c img img' ra h
  exact ⟨img', cs, ls, h, ho, by omega, by omega, a1, a2⟩

/-- C3 amended, at the default configuration and canvas. -/
theorem drawNoises_calls_witness :
    ∃ img' circles lines, cfg1.drawNoises canvas0 env0.noise = .ok img' ∧
      img'.ops = canvas0.ops ++ circles ++ lines ∧
      (circles.length : Int) = cfg1.disturlvl ∧ (lines.length : Int) = cfg1.disturlvl ∧
      (∀ op ∈ circles, op.isCircle = true) ∧ ∀ op ∈ lines, op.isLine = true :=
  drawNoises_calls cfg1 canvas0 env0.noise (by decide) (by decide) (by decide) (by decide)

/-- C4 at the text `"éa"` (two characters, three bytes) on the default canvas: the code
takes `len(str) = 3` for the glyph count and the byte offsets 0 and 2 for the glyph
indices, so the second glyph goes to `2 * (82/3 - 20/6) - (36 - 32) = 44`, where two
characters at indices 0 and 1 would give `1 * (82/2 - 20/6) - (36 - 32) = 34`. -/
theorem drawString_multibyte :
    (rangeStr textEA).map Prod.snd = [0xE9, 0x61] ∧ textEA.length = 3 ∧
      drawnLefts (cfg1.drawString rotPad canvas0 textEA env0.text env0.glob)
        = some [-4, 44] ∧
      gapOf canvas0.Size 3 = 24 ∧ gapOf canvas0.Size 2 = 38 ∧
      (1 : Int) * gapOf canvas0.Size 2 - (36 - 32) = 34 := by
  decide

theorem chars_of_drawn {R : Nat × Nat → Glyph → Prop} (hR : ∀ it gl, R it gl → gl.char = it.2) :
    ∀ (its : List (Nat × Nat)) (gls : List Glyph), List.Forall₂ R its gls →
      gls.map Glyph.char = its.map Prod.snd := by
  intro its gls h
  induction h with
  | nil => rfl
  | cons h1 _ ih => simp [hR _ _ h1, ih]

/-- C5: `CreateImage` normalises its input before drawing: the empty text is replaced by
the fixed, non-empty string `"unkown"`, every non-empty text is handed on unchanged, and
the glyphs of a returned image are, in order, the characters of the string handed on. -/
theorem CreateImage_text (c : Captcha) (str : GoString) (env : Env) :
    unkown ≠ [] ∧ drawnText [] = unkown ∧ (str ≠ [] → drawnText str = str) ∧
      c.CreateImage [] env = c.CreateImage unkown env ∧
      ∀ img, c.CreateImage str env = .ok img →
        (glyphsOf (workingOps img)).map Glyph.char = (rangeStr (drawnText str)).map Prod.snd := by
  refine ⟨by simp [unkown], rfl, ?_, rfl, ?_⟩
  · intro h
    unfold drawnText
    rw [if_neg]
    have := List.length_pos.mpr h
    omega
  · intro img h
    obtain ⟨-, -, noise, gl, ho, hn, hall⟩ := CreateImage_log c str env img h
    rw [ho, glyphsOf_append, glyphsOf_noise noise hn, List.nil_append]
    exact chars_of_drawn (fun it gl h => h.choose_spec.2.2.1) _ _
      (glyphsOf_drawn c _ _ _ _ _ _ _ _ hall)

/-- C5 on the default configuration with one font: the empty text is drawn as the six
characters of `"unkown"`, the text `"A1b2"` as itself. -/
theorem CreateImage_text_witness :
    runesOf? (cfg1.CreateImage [] env0) = some [0x75, 0x6E, 0x6B, 0x6F, 0x77, 0x6E] ∧
      runesOf? (cfg1.CreateImage textA1b2 env0) = some [0x41, 0x31, 0x62, 0x32] ∧
      cfg1.CreateImage [] env0 = cfg1.CreateImage unkown env0 :=
  ⟨by decide, by decide, (CreateImage_text cfg1 [] env0).2.2.2.1⟩

/-- C6: every outcome `k` of `r.Intn(60)` satisfies `0 <= k < 60`, and every glyph that
`drawString` composites was rotated by `k - 30` degrees for such a `k`, so its angle
satisfies `-30 <= angle < 30`; the angles `-30` and `29` are attained. -/
theorem drawString_angle (c : Captcha) (rot : Int → Int → Point) (img : Image)
    (str : GoString) (r g : Rng) :
    (∀ (r0 r1 : Rng) (k : Int), r0.Intn 60 = .ok (k, r1) → 0 ≤ k ∧ k < 60) ∧
      (∀ img' g', c.drawString rot img str r g = .ok (img', g') →
        ∃ new, img'.ops = img.ops ++ new ∧
          List.Forall₂ (fun (_ : Nat × Nat) (gl : Glyph) => ∃ k : Int, 0 ≤ k ∧ k < 60 ∧
            gl.angle = k - 30 ∧ gl.w = (rot img.height (k - 30)).X ∧
            gl.h = (rot img.height (k - 30)).Y ∧ -30 ≤ gl.angle ∧ gl.angle < 30)
            (rangeStr str) (glyphsOf new)) ∧
      (drawnGlyphs (cfg1.drawString rotPad canvas0 textA (rngOf [0, 0]) (rngOf []))).map
        (List.map Glyph.angle) = some [-30] ∧
      (drawnGlyphs (cfg1.drawString rotPad canvas0 textA (rngOf [0, 59]) (rngOf []))).map
        (List.map Glyph.angle) = some [29] := by
  refine ⟨fun r0 r1 k hk => (Intn_range r0 r1 60 k hk).2, ?_, by decide, by decide⟩
  intro img' g' h
  obtain ⟨-, -, -, new, ho, hall⟩ := drawString_log c rot img img' str r g g' h
  refine ⟨new, ho, ?_⟩
  refine List.Forall₂.imp ?_ (glyphsOf_drawn c _ _ _ _ _ _ _ _ hall)
  rintro it gl ⟨k, k0, k60, -, -, -, -, ha, hw, hh, -, -⟩
  exact ⟨k, k0, k60, ha, hw, hh, by omega, by omega⟩

/-- C9 at the one-character text `"A"` on the default 82 by 32 canvas, in `drawString`
and through `CreateImage`: the glyph canvas is 32 by 32 and the vertical origin 6 lies
inside it, but the horizontal origin is `offset_x = 82 / 2 = 41`, not below the side 32. -/
theorem drawString_origin_outside :
    48 ≤ canvas0.width ∧ 20 ≤ canvas0.height ∧ textA ≠ [] ∧
      (drawnGlyphs (cfg1.drawString rotPad canvas0 textA env0.text env0.glob)).map
        (List.map Glyph.offX) = some [41] ∧
      originsOf? (cfg1.CreateImage textA env0) = some [(41, 6)] ∧
      ¬ ((41 : Int) < canvas0.height) := by
  decide

theorem offsetYOf_nat (n : Nat) (hn : 0 < n) :
    offsetYOf (n : Int) = ((roundF64 (roundF64 n * c02) / 2 ^ 55 : Nat) : Int) := by
  have hs : Int.sign (n : Int) = 1 := Int.sign_eq_one_of_pos (by exact_mod_cast hn)
  simp only [offsetYOf, mulConstTrunc, hs, Int.natAbs_ofNat, one_mul]

/-- The vertical origin lies inside the glyph canvas, and is a fifth of the height for
heights below `2^48`. -/
theorem offsetYOf_bounds (h : Int) (hh : 0 < h) :
    0 ≤ offsetYOf h ∧ offsetYOf h < h ∧ (h < 2 ^ 48 → offsetYOf h = h / 5) := by
  obtain ⟨n, rfl⟩ := Int.eq_ofNat_of_zero_le (le_of_lt hh)
  have hn : 0 < n := by exact_mod_cast hh
  rw [offsetYOf_nat n hn]
  refine ⟨by positivity, by exact_mod_cast offsetY_lt n hn, ?_⟩
  intro hlt
  have hlt' : n < 2 ^ 48 := by exact_mod_cast hlt
  rw [offsetY_exact n hlt']
  omega

theorem offsetXOf_bounds (size : Point) (len : Nat) (hX : 0 ≤ size.X) :
    0 ≤ offsetXOf size len ∧ ∀ b : Int, offsetXOf size len < b ↔ size.X < b * (len + 1) := by
  have hl : (0 : Int) < (len : Int) + 1 := by omega
  unfold offsetXOf
  rw [Int.tdiv_eq_ediv hX (le_of_lt hl)]
  exact ⟨Int.ediv_nonneg hX (le_of_lt hl), fun b => Int.ediv_lt_iff_lt_mul hl⟩

/-- C10: in every configuration reached from `New()` by calls of the configuration
methods and holding at least one font, for every text and every outcome of the random
draws, every bound passed to a random-integer draw (width, height, height/20,
height/10, number of front colours, number of fonts, 60) is positive, the divisor
`len(str)` of the gap is non-zero, and the render runs to its end without a panic of
`Intn`, of a division or of an index, returning an image. -/
theorem CreateImage_no_fault (cs : List Call) (str : GoString) (env : Env)
    (hT : 0 < (New.calls cs).fonts.length) :
    0 < (New.calls cs).size.X ∧ 0 < (New.calls cs).size.Y ∧
      0 < Int.tdiv (New.calls cs).size.Y 20 ∧ 0 < Int.tdiv (New.calls cs).size.Y 10 ∧
      0 < (New.calls cs).frontColors.length ∧ 0 < (New.calls cs).fonts.length ∧
      (0 : Int) < 60 ∧ (drawnText str).length ≠ 0 ∧
      ∃ img, (New.calls cs).CreateImage str env = .ok img := by
  obtain ⟨hF, hB, -, hX, hY⟩ := Valid_calls cs New Valid_New
  refine ⟨by omega, by omega, tdiv_pos_of_le _ _ (by norm_num) hY,
    tdiv_pos_of_le _ _ (by norm_num) (by omega), hF, hT, by norm_num, ?_,
    CreateImage_ok _ str env (by omega) hY hF hB hT⟩
  have := List.length_pos.mpr (drawnText_ne_nil str)
  omega

/-- C10 after `AddFont`, `SetSize(10, 10)`, `SetDisturbance(16)` and an empty
`SetFrontColor()`, for the empty text. -/
theorem CreateImage_no_fault_witness :
    0 < (New.calls calls0).size.X ∧ 0 < (New.calls calls0).size.Y ∧
      0 < Int.tdiv (New.calls calls0).size.Y 20 ∧ 0 < Int.tdiv (New.calls calls0).size.Y 10 ∧
      0 < (New.calls calls0).frontColors.length ∧ 0 < (New.calls calls0).fonts.length ∧
      (0 : Int) < 60 ∧ (drawnText []).length ≠ 0 ∧
      ∃ img, (New.calls calls0).CreateImage [] env0 = .ok img :=
  CreateImage_no_fault calls0 [] env0 (by decide)

end Afocus
